import Mathlib

/-!
Shallow embedding of `src/ai4boundaries/functions.py` (the whole repository is
this single module).  Strings are modelled by Lean `String` (a wrapper around
`List Char`); Python `str.replace`, `str.endswith` and the `in` substring test
are re-implemented below with CPython's left-to-right, non-overlapping
semantics.  The recursive scraper, the directory materializer and the
two-pass download engine are embedded as pure state-passing functions; the
network is a parameter (`listing` maps a directory URL to the href targets of
its index page, `fetch` maps a file URL and a 0-based attempt number to an
outcome).  Recursion in the scraper is bounded by an explicit fuel argument;
every concrete run below is evaluated with fuel strictly larger than the work
the fixture needs, so the fuel never runs out there.
-/

/-- Python `pat in s` (substring test), on character lists. -/
def containsSub (pat : List Char) : List Char → Bool
  | [] => pat.isPrefixOf []
  | c :: rest => pat.isPrefixOf (c :: rest) || containsSub pat rest

/-- Worker for `replaceAll`, with explicit fuel (the initial string length
suffices, since each step consumes at least one character). -/
def replaceAllAux (pat rep : List Char) : Nat → List Char → List Char
  | 0, s => s
  | fuel + 1, s =>
    if ((!pat.isEmpty) && pat.isPrefixOf s) = true then
      rep ++ replaceAllAux pat rep fuel (s.drop pat.length)
    else
      match s with
      | [] => []
      | c :: rest => c :: replaceAllAux pat rep fuel rest

/-- Python `s.replace(pat, rep)` for non-empty `pat`: replace every
occurrence, scanning left to right, non-overlapping. -/
def replaceAll (pat rep s : List Char) : List Char :=
  replaceAllAux pat rep s.length s

theorem replaceAllAux_nil (pat rep : List Char) (fuel : Nat) :
    replaceAllAux pat rep fuel [] = [] := by
  cases fuel with
  | zero => rfl
  | succ f => cases pat <;> simp [replaceAllAux, List.isPrefixOf]

theorem replaceAllAux_fuel (pat rep : List Char) :
    ∀ (f : Nat) (s : List Char) (f' : Nat), s.length ≤ f → s.length ≤ f' →
      replaceAllAux pat rep f s = replaceAllAux pat rep f' s := by
  intro f
  induction f with
  | zero =>
    intro s f' h1 _
    have hs : s = [] := List.eq_nil_of_length_eq_zero (Nat.le_zero.mp h1)
    subst hs
    rw [replaceAllAux_nil, replaceAllAux_nil]
  | succ f ih =>
    intro s f' h1 h2
    cases s with
    | nil => rw [replaceAllAux_nil, replaceAllAux_nil]
    | cons c rest =>
      cases f' with
      | zero => simp at h2
      | succ f' =>
        by_cases hc : ((!pat.isEmpty) && pat.isPrefixOf (c :: rest)) = true
        · have hpat : pat ≠ [] := by
            intro h
            subst h
            simp at hc
          have hlen : 1 ≤ pat.length := by
            cases pat with
            | nil => exact absurd rfl hpat
            | cons p pr => simp
          have hdrop : ((c :: rest).drop pat.length).length ≤ rest.length := by
            rw [List.length_drop]
            simp only [List.length_cons]
            omega
          have hrest1 : rest.length ≤ f := Nat.le_of_succ_le_succ (by simpa using h1)
          have hrest2 : rest.length ≤ f' := Nat.le_of_succ_le_succ (by simpa using h2)
          simp only [replaceAllAux, hc, if_pos]
          rw [ih ((c :: rest).drop pat.length) f' (Nat.le_trans hdrop hrest1)
            (Nat.le_trans hdrop hrest2)]
        · have hrest1 : rest.length ≤ f := Nat.le_of_succ_le_succ (by simpa using h1)
          have hrest2 : rest.length ≤ f' := Nat.le_of_succ_le_succ (by simpa using h2)
          simp only [replaceAllAux, hc, if_neg, Bool.not_eq_true]
          rw [ih rest f' hrest1 hrest2]

theorem replaceAllAux_of_not_contains (pat rep : List Char) :
    ∀ (s : List Char) (fuel : Nat), containsSub pat s = false →
      replaceAllAux pat rep fuel s = s := by
  intro s
  induction s with
  | nil => intro fuel _; exact replaceAllAux_nil pat rep fuel
  | cons c rest ih =>
    intro fuel h
    have h' := h
    simp only [containsSub, Bool.or_eq_false_iff] at h'
    cases fuel with
    | zero => rfl
    | succ f =>
      have hc : ((!pat.isEmpty) && pat.isPrefixOf (c :: rest)) = false := by
        rw [h'.1, Bool.and_false]
      simp only [replaceAllAux, hc]
      simp only [Bool.false_eq_true, if_false]
      rw [ih f h'.2]

theorem replaceAll_of_not_contains (pat rep s : List Char)
    (h : containsSub pat s = false) : replaceAll pat rep s = s :=
  replaceAllAux_of_not_contains pat rep s s.length h

theorem isPrefixOf_append_self (l s : List Char) : l.isPrefixOf (l ++ s) = true := by
  induction l with
  | nil => simp [List.isPrefixOf]
  | cons c rest ih => simp [List.isPrefixOf, ih]

theorem replaceAll_append_self (pat rep s : List Char) (hp : pat ≠ []) :
    replaceAll pat rep (pat ++ s) = rep ++ replaceAll pat rep s := by
  cases pat with
  | nil => exact absurd rfl hp
  | cons p pr =>
    have hlen : (p :: pr ++ s).length = (pr.length + s.length) + 1 := by
      simp [Nat.succ_add]
    have hcond : ((!(p :: pr).isEmpty) && (p :: pr).isPrefixOf (p :: pr ++ s)) = true := by
      rw [isPrefixOf_append_self]
      simp [List.isEmpty]
    rw [replaceAll, hlen]
    simp only [replaceAllAux, hcond, if_pos]
    have hdrop : ((p :: pr ++ s).drop (p :: pr).length) = s := by
      have h := List.drop_left (p :: pr) s
      simp only [List.cons_append] at h ⊢
      exact h
    rw [hdrop]
    rw [replaceAllAux_fuel (p :: pr) rep (pr.length + s.length) s s.length
      (by omega) (Nat.le_refl _)]
    rfl

theorem isPrefixOf_append_right {l m : List Char} (b : List Char)
    (h : l.isPrefixOf m = true) : l.isPrefixOf (m ++ b) = true := by
  induction l generalizing m with
  | nil => simp [List.isPrefixOf]
  | cons c cs ih =>
    cases m with
    | nil => simp [List.isPrefixOf] at h
    | cons d ds =>
      simp only [List.isPrefixOf, Bool.and_eq_true] at h
      simp only [List.cons_append, List.isPrefixOf, Bool.and_eq_true]
      exact ⟨h.1, ih h.2⟩

theorem containsSub_append_right {pat a : List Char} (b : List Char)
    (h : containsSub pat a = true) : containsSub pat (a ++ b) = true := by
  induction a with
  | nil =>
    simp only [containsSub] at h
    have hpat : pat = [] := by
      cases pat with
      | nil => rfl
      | cons p pr => simp [List.isPrefixOf] at h
    subst hpat
    cases b <;> simp [containsSub, List.isPrefixOf]
  | cons c rest ih =>
    simp only [containsSub, Bool.or_eq_true] at h
    simp only [List.cons_append, containsSub, Bool.or_eq_true]
    cases h with
    | inl h =>
      left
      have h' := isPrefixOf_append_right b h
      simpa using h'
    | inr h => exact Or.inr (ih h)

/-- Python `s.replace(old, new)` (for the non-empty `old` patterns the code uses). -/
def pyReplace (s old new : String) : String :=
  String.mk (replaceAll old.data new.data s.data)

/-- Python `pat in s`. -/
def containsStr (s pat : String) : Bool :=
  containsSub pat.data s.data

/-- Python `s.endswith(suffix)`. -/
def strEndsWith (s suffix : String) : Bool :=
  suffix.data.isSuffixOf s.data

/-- Python `s.startswith(p)` (used only to state claims). -/
def strStartsWith (s p : String) : Bool :=
  p.data.isPrefixOf s.data

theorem strData_append (a b : String) : (a ++ b).data = a.data ++ b.data := by
  cases a
  cases b
  rfl

theorem strEqOfData {a b : String} (h : a.data = b.data) : a = b := by
  cases a
  cases b
  exact congrArg String.mk h

theorem pyReplace_append_self (p s rep : String) (hp : p.data ≠ []) :
    pyReplace (p ++ s) p rep = rep ++ pyReplace s p rep := by
  apply strEqOfData
  rw [pyReplace, strData_append, replaceAll_append_self p.data rep.data s.data hp]
  rw [strData_append]
  rfl

theorem pyReplace_of_not_contains (s old rep : String)
    (h : containsStr s old = false) : pyReplace s old rep = s := by
  apply strEqOfData
  rw [pyReplace]
  exact replaceAll_of_not_contains old.data rep.data s.data h

/-- The module-level constant `BASE_URL` of `functions.py`. -/
def BASE_URL : String := "https://jeodpp.jrc.ec.europa.eu/ftp/jrc-opendata/DRLL/AI4BOUNDARIES/"

/-- `valid_sensors` from `download_ai4boundaries`. -/
def valid_sensors : List String := ["All", "ortho", "s2"]

/-- `valid_countries` from `download_ai4boundaries`. -/
def valid_countries : List String := ["All", "AT", "ES", "FR", "LU", "NL", "SE", "SI"]

/-- The seed-URL selection block of `download_ai4boundaries` (the
`if sensor == ... / elif ...` chain filling the initial `urls` list). -/
def selectSeeds (sensor country : String) : List String :=
  if sensor = "All" ∧ country = "All" then
    [BASE_URL]
  else if sensor = "ortho" then
    if country = "All" then
      [BASE_URL ++ "orthophoto/"]
    else
      [BASE_URL ++ "orthophoto/images/" ++ country ++ "/",
       BASE_URL ++ "orthophoto/masks/" ++ country ++ "/"]
  else if sensor = "s2" then
    if country = "All" then
      [BASE_URL ++ "sentinel2/"]
    else
      [BASE_URL ++ "sentinel2/images/" ++ country ++ "/",
       BASE_URL ++ "sentinel2/masks/" ++ country ++ "/"]
  else
    []

/-- The mutable module state the scraper works on: the `urls` list (seeds plus
discovered directory URLs, also serving as the revisit guard), the `url_fns`
file-URL list, and a trace of every directory-listing fetch (`requests.get`)
the code performs, in order. -/
structure ScrapeState where
  urls : List String
  url_fns : List String
  fetched : List String
deriving DecidableEq

/-- The body of `scrape`: iterate over the extracted hrefs of the current
listing; an href ending in `/` is a sub-directory (concatenate, guard on the
`urls` list, append and recurse); an href ending in `tif` or `nc` is appended
to `url_fns`.  `fuel` bounds the total number of processing steps; it is an
artifact of the embedding (Python recursion is unbounded) and every use below
supplies more fuel than the run consumes. -/
def scrapeCore (listing : String → List String) : Nat → String → List String → ScrapeState → ScrapeState
  | 0, _, _, st => st
  | _ + 1, _, [], st => st
  | fuel + 1, site, href :: rest, st =>
    let st1 :=
      if strEndsWith href "/" = true then
        (if (site ++ href) ∈ st.urls then st
         else
           scrapeCore listing fuel (site ++ href) (listing (site ++ href))
             { st with urls := st.urls ++ [site ++ href],
                       fetched := st.fetched ++ [site ++ href] })
      else st
    let st2 :=
      if (strEndsWith href "tif" || strEndsWith href "nc") = true then
        { st1 with url_fns := st1.url_fns ++ [site ++ href] }
      else st1
    scrapeCore listing fuel site rest st2

/-- One call `scrape(site)`: perform the listing fetch for `site` and process
its hrefs. -/
def scrapeTop (listing : String → List String) (fuel : Nat) (site : String)
    (st : ScrapeState) : ScrapeState :=
  scrapeCore listing fuel site (listing site) { st with fetched := st.fetched ++ [site] }

/-- The driver loop `for url in urls: scrape(url)`.  Python list iteration is
by increasing index and sees elements appended during the loop, so the loop
also reaches the directory URLs that `scrape` itself appends; `ofuel` bounds
the number of loop iterations. -/
def scrapeLoop (listing : String → List String) (fuel : Nat) : Nat → Nat → ScrapeState → ScrapeState
  | 0, _, st => st
  | ofuel + 1, i, st =>
    match st.urls.get? i with
    | none => st
    | some u => scrapeLoop listing fuel ofuel (i + 1) (scrapeTop listing fuel u st)

/-- The whole scraping stage: seed `urls`, then run the driver loop. -/
def scrapeAll (listing : String → List String) (fuel ofuel : Nat)
    (seeds : List String) : ScrapeState :=
  scrapeLoop listing fuel ofuel 0 ⟨seeds, [], []⟩

/-- `dir` if it ends with `/`, else `dir + '/'` — the replacement string used
by both path translations. -/
def dirSlash (dir : String) : String :=
  if strEndsWith dir "/" = true then dir else dir ++ "/"

/-- The path translation used by the download loops:
`url_fn.replace(BASE_URL, dir)` (with `/` appended to `dir` if missing). -/
def translateFile (dir u : String) : String :=
  pyReplace u BASE_URL (dirSlash dir)

/-- The per-URL translation used for directory creation: the same base-prefix
replacement followed by `.replace('DRLL/', '')`. -/
def translateDirURL (dir u : String) : String :=
  pyReplace (translateFile dir u) "DRLL/" ""

/-- The `subdirs` pipeline of `download_ai4boundaries`: drop URLs ending in
`DRLL/`, replace the base prefix, drop results containing `ftp`, then remove
any remaining `DRLL/` segment. -/
def subdirsFor (dir : String) (urls : List String) : List String :=
  let stage1 := (urls.filter (fun i => !(strEndsWith i "DRLL/"))).map
    (fun i => translateFile dir i)
  (stage1.filter (fun s => !(containsStr s "ftp"))).map
    (fun s => pyReplace s "DRLL/" "")

/-- Outcome of one `urllib.request.urlopen`-and-write attempt: success with
the fetched bytes, a `urllib.error.URLError`, or any other exception. -/
inductive FetchOutcome where
  | ok (data : List Nat)
  | urlError
  | otherError
deriving DecidableEq

/-- State of the download stage: the local filesystem (path to bytes), the
log of fetch calls in order (its count per URL gives the 0-based attempt
number), the `(url, destination)` pairs passed to `download_file` in order,
the `failed_fns` list, and the total time spent in `time.sleep`. -/
structure DLState where
  fs : List (String × List Nat)
  fetchLog : List String
  tried : List (String × String)
  failed : List String
  slept : Nat
deriving DecidableEq

/-- Overwriting filesystem write (`open(dst, 'wb')` truncates). -/
def fsSet (fs : List (String × List Nat)) (k : String) (v : List Nat) :
    List (String × List Nat) :=
  (fs.filter (fun p => !(p.1 == k))) ++ [(k, v)]

/-- Filesystem read-back, for stating what exists on disk after a run. -/
def fsGet (fs : List (String × List Nat)) (k : String) : Option (List Nat) :=
  (fs.find? (fun p => p.1 == k)).map Prod.snd

/-- `download_file(url, dst_path)`: fetch the URL (the attempt number is the
count of previous fetches of the same URL) and write the body to `dst_path`.
A `URLError` is caught inside the function (only a message is printed) and
the function returns normally; any other exception propagates to the caller,
signalled by the returned `Bool`.  No write happens on any failure. -/
def download_file (fetch : String → Nat → FetchOutcome) (url dst : String)
    (st : DLState) : DLState × Bool :=
  let n := st.fetchLog.count url
  let st1 := { st with fetchLog := st.fetchLog ++ [url],
                       tried := st.tried ++ [(url, dst)] }
  match fetch url n with
  | FetchOutcome.ok data => ({ st1 with fs := fsSet st1.fs dst data }, false)
  | FetchOutcome.urlError => (st1, false)
  | FetchOutcome.otherError => (st1, true)

/-- First download pass: for each file URL, translate the path and call
`download_file`; on a propagating exception, `time.sleep(20)` and append the
URL to `failed_fns`. -/
def downloadPass1 (fetch : String → Nat → FetchOutcome) (dir : String) :
    List String → DLState → DLState
  | [], st => st
  | u :: rest, st =>
    let res := download_file fetch u (translateFile dir u) st
    let st2 :=
      if res.2 = true then
        { res.1 with slept := res.1.slept + 20, failed := res.1.failed ++ [u] }
      else res.1
    downloadPass1 fetch dir rest st2

/-- Retry pass over `failed_fns`: same call, but a propagating exception is
swallowed (`except: continue`), with no sleep and no collection. -/
def downloadRetry (fetch : String → Nat → FetchOutcome) (dir : String) :
    List String → DLState → DLState
  | [], st => st
  | u :: rest, st =>
    downloadRetry fetch dir rest (download_file fetch u (translateFile dir u) st).1

/-- Initial download state: empty disk, nothing fetched. -/
def dlInit : DLState := ⟨[], [], [], [], 0⟩

/-- The whole download stage of `download_ai4boundaries`: one full pass, then
one retry pass over the collected failures. -/
def downloadAll (fetch : String → Nat → FetchOutcome) (dir : String)
    (url_fns : List String) : DLState :=
  let st1 := downloadPass1 fetch dir url_fns dlInit
  downloadRetry fetch dir st1.failed st1

/-- Everything `download_ai4boundaries` leaves behind when it returns
normally: the discovered directory URLs, the file URLs, the listing-fetch
trace, the local directories created, and the final download state. -/
structure RunResult where
  urls : List String
  url_fns : List String
  fetchedListings : List String
  createdDirs : List String
  dl : DLState
deriving DecidableEq

/-- `download_ai4boundaries(dir, sensor, country)`: validate the arguments
(raising `ValueError` before anything else happens), select the seeds, scrape,
materialize directories, download with one retry pass. -/
def download_ai4boundaries (listing : String → List String)
    (fetch : String → Nat → FetchOutcome) (fuel ofuel : Nat)
    (dir sensor country : String) : Except String RunResult :=
  if valid_sensors.contains sensor = false then
    Except.error "Invalid sensor value."
  else if valid_countries.contains country = false then
    Except.error "Invalid country value."
  else
    let sst := scrapeAll listing fuel ofuel (selectSeeds sensor country)
    let subdirs := subdirsFor dir sst.urls
    let dl := downloadAll fetch dir sst.url_fns
    Except.ok ⟨sst.urls, sst.url_fns, sst.fetched, subdirs, dl⟩

theorem scrapeCore_nil (listing : String → List String) (fuel : Nat) (site : String)
    (st : ScrapeState) : scrapeCore listing fuel site [] st = st := by
  cases fuel <;> rfl

theorem endsSlash_not_file (s : String) (h : strEndsWith s "/" = true) :
    (strEndsWith s "tif" || strEndsWith s "nc") = false := by
  simp only [strEndsWith, List.isSuffixOf] at h ⊢
  have h' : List.isPrefixOf ['/'] s.data.reverse = true := h
  show (List.isPrefixOf ['f', 'i', 't'] s.data.reverse
      || List.isPrefixOf ['c', 'n'] s.data.reverse) = false
  cases hrev : s.data.reverse with
  | nil =>
    rw [hrev] at h'
    simp [List.isPrefixOf] at h'
  | cons c cs =>
    rw [hrev] at h'
    simp only [List.isPrefixOf, Bool.and_eq_true, List.isPrefixOf_nil_left,
      and_true] at h'
    have hc : c = '/' := (beq_iff_eq.mp h').symm
    subst hc
    have hf : (('f' : Char) == '/') = false := by decide
    have hcn : (('c' : Char) == '/') = false := by decide
    simp [List.isPrefixOf, hf, hcn]

/-- Processing a single href against an empty remote tree: the state change
is exactly the directory branch followed by the file branch of the loop body. -/
theorem scrapeCore_single (listing : String → List String) (fuel : Nat)
    (site href : String) (st : ScrapeState) (hlist : ∀ u, listing u = []) :
    scrapeCore listing (fuel + 1) site [href] st =
      (let st1 :=
        if strEndsWith href "/" = true then
          (if (site ++ href) ∈ st.urls then st
           else { st with urls := st.urls ++ [site ++ href],
                          fetched := st.fetched ++ [site ++ href] })
        else st
      if (strEndsWith href "tif" || strEndsWith href "nc") = true then
        { st1 with url_fns := st1.url_fns ++ [site ++ href] }
      else st1) := by
  simp only [scrapeCore, hlist, scrapeCore_nil]

theorem download_file_fst_tried (fetch : String → Nat → FetchOutcome)
    (url dst : String) (st : DLState) :
    ((download_file fetch url dst st).1).tried = st.tried ++ [(url, dst)] := by
  simp only [download_file]
  cases hf : fetch url (List.count url st.fetchLog) <;> simp [hf]

theorem downloadPass1_tried (fetch : String → Nat → FetchOutcome) (dir : String) :
    ∀ (fns : List String) (st : DLState),
      (downloadPass1 fetch dir fns st).tried
        = st.tried ++ fns.map (fun u => (u, translateFile dir u)) := by
  intro fns
  induction fns with
  | nil => intro st; simp [downloadPass1]
  | cons u rest ih =>
    intro st
    simp only [downloadPass1]
    by_cases h : (download_file fetch u (translateFile dir u) st).2 = true
    · rw [if_pos h, ih]
      simp [download_file_fst_tried]
    · rw [if_neg h, ih]
      simp [download_file_fst_tried]

theorem downloadRetry_tried (fetch : String → Nat → FetchOutcome) (dir : String) :
    ∀ (fns : List String) (st : DLState),
      (downloadRetry fetch dir fns st).tried
        = st.tried ++ fns.map (fun u => (u, translateFile dir u)) := by
  intro fns
  induction fns with
  | nil => intro st; simp [downloadRetry]
  | cons u rest ih =>
    intro st
    simp only [downloadRetry]
    rw [ih]
    simp [download_file_fst_tried]

theorem containsStr_append_left (a b p : String) (h : containsStr a p = true) :
    containsStr (a ++ b) p = true := by
  unfold containsStr at *
  rw [strData_append]
  exact containsSub_append_right _ h

theorem containsStr_dirSlash (dir p : String) (h : containsStr dir p = true) :
    containsStr (dirSlash dir) p = true := by
  unfold dirSlash
  by_cases hs : strEndsWith dir "/" = true
  · rw [if_pos hs]; exact h
  · rw [if_neg hs]; exact containsStr_append_left dir "/" p h

theorem filter_eq_nil_of_all {α : Type} (p : α → Bool) (l : List α)
    (h : ∀ a ∈ l, p a = false) : l.filter p = [] := by
  induction l with
  | nil => rfl
  | cons a rest ih =>
    have ha := h a (List.mem_cons_self a rest)
    simp only [List.filter, ha]
    exact ih (fun b hb => h b (List.mem_cons_of_mem a hb))

theorem translateFile_base (dir s : String) :
    translateFile dir (BASE_URL ++ s)
      = dirSlash dir ++ pyReplace s BASE_URL (dirSlash dir) := by
  rw [translateFile, pyReplace_append_self _ _ _ (by decide)]

theorem translateFile_base_clean (dir s : String)
    (hb : containsStr s BASE_URL = false) :
    translateFile dir (BASE_URL ++ s) = dirSlash dir ++ s := by
  rw [translateFile_base, pyReplace_of_not_contains s BASE_URL _ hb]

theorem translateDirURL_clean (dir s : String)
    (hb : containsStr s BASE_URL = false)
    (hd : containsStr (dirSlash dir ++ s) "DRLL/" = false) :
    translateDirURL dir (BASE_URL ++ s) = dirSlash dir ++ s := by
  rw [translateDirURL, translateFile_base_clean dir s hb,
    pyReplace_of_not_contains _ _ _ hd]

/-- Synthetic remote tree for the scraper: the seed `S/` lists one
sub-directory `a/`, which lists one data file `x.tif`; every other URL has an
empty listing. -/
def fixtureListing1 (u : String) : List String :=
  if u = "S/" then ["a/"] else if u = "S/a/" then ["x.tif"] else []

/-- Claim C1: the claim says scrape fetches and processes each distinct
directory URL exactly once and returns each reachable terminal file once, in
depth-first discovery order.  On the fixture above, the code fetches the
discovered sub-directory `S/a/` twice — once during the recursive descent and
once more from the driver loop `for url in urls`, which iterates over the very
list `scrape` appends to — and consequently lists `S/a/x.tif` twice.  This
contradicts the revisit-guard intent stated by the spec, so the driver loop is
a code bug. -/
theorem C1_scrape_refetch_eval :
    (scrapeAll fixtureListing1 10 10 ["S/"]).urls = ["S/", "S/a/"] ∧
    (scrapeAll fixtureListing1 10 10 ["S/"]).fetched = ["S/", "S/a/", "S/a/"] ∧
    (scrapeAll fixtureListing1 10 10 ["S/"]).url_fns = ["S/a/x.tif", "S/a/x.tif"] := by
  decide

/-- Fetch behaviour for C2: the first attempt for `BASE_URL ++ "f.nc"` raises
`urllib.error.URLError`; any later attempt would succeed. -/
def fetchFirstURLError (u : String) (n : Nat) : FetchOutcome :=
  if u = BASE_URL ++ "f.nc" ∧ n = 0 then FetchOutcome.urlError else FetchOutcome.ok [7]

/-- Claim C2: the claim says a file whose fetch raises on the first attempt
and would succeed on the second exists on disk after `downloadAll`.  In the
code, `download_file` catches `URLError` internally and returns normally, so
the engine's `except` branch never runs for it: the URL is never appended to
`failed_fns`, the retry pass never touches it, only one fetch happens, and
nothing is written at its translated path.  (The second half of the claim — a
URL failing both attempts leaves no file and no escaping exception — does hold;
the first half is defeated by this slip, so it is a code bug.) -/
theorem C2_urlerror_no_retry_eval :
    fsGet (downloadAll fetchFirstURLError "/data" [BASE_URL ++ "f.nc"]).fs
        (translateFile "/data" (BASE_URL ++ "f.nc")) = none ∧
    (downloadAll fetchFirstURLError "/data" [BASE_URL ++ "f.nc"]).fs = [] ∧
    (downloadAll fetchFirstURLError "/data" [BASE_URL ++ "f.nc"]).failed = [] ∧
    (downloadAll fetchFirstURLError "/data" [BASE_URL ++ "f.nc"]).fetchLog
      = [BASE_URL ++ "f.nc"] := by
  decide

/-- Claim C3, counterexample: the directory-path translation is not injective
on URLs under the base prefix.  The two distinct URLs `BASE_URL ++ "DRLL/x/"`
and `BASE_URL ++ "x/"` both start with the base prefix, yet the
`.replace('DRLL/', '')` normalization collapses them to the same local path
`/data/x/`. -/
theorem C3_translation_collision :
    BASE_URL ++ "DRLL/x/" ≠ BASE_URL ++ "x/" ∧
    strStartsWith (BASE_URL ++ "DRLL/x/") BASE_URL = true ∧
    strStartsWith (BASE_URL ++ "x/") BASE_URL = true ∧
    translateDirURL "/data" (BASE_URL ++ "DRLL/x/")
      = translateDirURL "/data" (BASE_URL ++ "x/") := by
  decide

/-- Claim C3, amended: the translation is injective on URLs `BASE_URL ++ s`
whose remainder `s` contains no further occurrence of the base prefix and for
which the prefix-substituted result contains no `DRLL/` segment (both
conditions hold for every URL the real catalog serves). -/
theorem C3_injective_amended (dir s1 s2 : String)
    (hne : BASE_URL ++ s1 ≠ BASE_URL ++ s2)
    (hb1 : containsStr s1 BASE_URL = false)
    (hb2 : containsStr s2 BASE_URL = false)
    (hd1 : containsStr (dirSlash dir ++ s1) "DRLL/" = false)
    (hd2 : containsStr (dirSlash dir ++ s2) "DRLL/" = false) :
    translateDirURL dir (BASE_URL ++ s1) ≠ translateDirURL dir (BASE_URL ++ s2) := by
  rw [translateDirURL_clean dir s1 hb1 hd1, translateDirURL_clean dir s2 hb2 hd2]
  intro h
  apply hne
  have h' := congrArg String.data h
  rw [strData_append, strData_append] at h'
  have hs : s1.data = s2.data := List.append_cancel_left h'
  rw [strEqOfData hs]

/-- Claim C3, witness for the amended statement at a concrete input. -/
theorem C3_injective_amended_witness :
    translateDirURL "/data" (BASE_URL ++ "a/") ≠ translateDirURL "/data" (BASE_URL ++ "b/") :=
  C3_injective_amended "/data" "a/" "b/" (by decide) (by decide) (by decide)
    (by decide) (by decide)

/-- Claim C4, counterexample: the Download Engine does not apply the `DRLL/`
removal step, so its write path can differ from the Directory Materializer's
translation: with root directory `/DRLL/data`, the engine writes to
`/DRLL/data/x.nc` while the materializer's translation of the same URL is
`/data/x.nc`. -/
theorem C4_translations_differ :
    strStartsWith (BASE_URL ++ "x.nc") BASE_URL = true ∧
    translateFile "/DRLL/data" (BASE_URL ++ "x.nc")
      ≠ translateDirURL "/DRLL/data" (BASE_URL ++ "x.nc") := by
  decide

/-- Claim C4, amended: the engine applies only the base-prefix replacement;
its path agrees with the materializer's translation whenever the
prefix-replaced result contains no remaining `DRLL/` segment. -/
theorem C4_agree_amended (dir u : String)
    (h : containsStr (translateFile dir u) "DRLL/" = false) :
    translateFile dir u = translateDirURL dir u := by
  rw [translateDirURL, pyReplace_of_not_contains _ _ _ h]

/-- Claim C4, witness for the amended statement at a concrete input. -/
theorem C4_agree_amended_witness :
    translateFile "/data" (BASE_URL ++ "a/x.nc")
      = translateDirURL "/data" (BASE_URL ++ "a/x.nc") :=
  C4_agree_amended "/data" (BASE_URL ++ "a/x.nc") (by decide)

/-- Remote tree for C5: the seed `S/` lists a parent-directory link `../`. -/
def fixtureListing2 (u : String) : List String :=
  if u = "S/" then ["../"] else []

/-- Claim C5, counterexample: a parent-directory link `../` ends with the path
separator, so the code treats it as a sub-directory: `S/../` is appended to
the discovered directory set and recursed into (it appears in the fetch
trace), contradicting "parent-directory links ... never recursed into". -/
theorem C5_parent_link_followed :
    (scrapeAll fixtureListing2 10 10 ["S/"]).urls = ["S/", "S/../"] ∧
    "S/../" ∈ (scrapeAll fixtureListing2 10 10 ["S/"]).fetched := by
  decide

/-- Claim C5, amended: a hyperlink target that ends neither with the path
separator nor with one of the recognized file suffixes (e.g. an unrelated
anchor) is ignored completely — the loop body leaves the state untouched and
performs no recursion; but a target ending with the separator, including a
parent link written `../`, is always treated as a sub-directory. -/
theorem C5_ignored_amended (listing : String → List String) (fuel : Nat)
    (site href : String) (rest : List String) (st : ScrapeState)
    (h1 : strEndsWith href "/" = false)
    (h2 : strEndsWith href "tif" = false)
    (h3 : strEndsWith href "nc" = false) :
    scrapeCore listing (fuel + 1) site (href :: rest) st
      = scrapeCore listing fuel site rest st := by
  simp [scrapeCore, h1, h2, h3]

/-- Claim C5, witness for the amended statement at a concrete input. -/
theorem C5_ignored_amended_witness :
    scrapeCore (fun _ => []) 3 "S/" ["#anchor", "x.html"] ⟨["S/"], [], []⟩
      = scrapeCore (fun _ => []) 2 "S/" ["x.html"] ⟨["S/"], [], []⟩ :=
  C5_ignored_amended (fun _ => []) 2 "S/" "#anchor" ["x.html"] ⟨["S/"], [], []⟩
    (by decide) (by decide) (by decide)

/-- Claim C6: processing one href (against an empty remote tree, so that the
directory branch contributes no nested files) appends `site ++ href` to the
file list exactly when the href ends with `tif` or with `nc`; moreover, when
the href does not end with the path separator, the directory set is untouched
— so a link ending in an unrelated suffix such as `.html` is added to neither
list. -/
theorem C6_file_suffix_exact (listing : String → List String) (fuel : Nat)
    (site href : String) (st : ScrapeState) (hlist : ∀ u, listing u = []) :
    (scrapeCore listing (fuel + 1) site [href] st).url_fns
      = st.url_fns ++ (if (strEndsWith href "tif" || strEndsWith href "nc") = true
          then [site ++ href] else []) ∧
    (strEndsWith href "/" = false →
      (scrapeCore listing (fuel + 1) site [href] st).urls = st.urls) := by
  rw [scrapeCore_single listing fuel site href st hlist]
  by_cases hd : strEndsWith href "/" = true
  · have hfile := endsSlash_not_file href hd
    by_cases hmem : (site ++ href) ∈ st.urls
    · constructor
      · simp [hd, hfile, hmem]
      · intro hc
        rw [hc] at hd
        exact Bool.noConfusion hd
    · constructor
      · simp [hd, hfile, hmem]
      · intro hc
        rw [hc] at hd
        exact Bool.noConfusion hd
  · have hd' : strEndsWith href "/" = false := by
      revert hd
      cases strEndsWith href "/" <;> simp
    by_cases hf : (strEndsWith href "tif" || strEndsWith href "nc") = true
    · constructor
      · simp [hd', hf]
      · intro _
        simp [hd', hf]
    · have hf' : (strEndsWith href "tif" || strEndsWith href "nc") = false := by
        revert hf
        cases (strEndsWith href "tif" || strEndsWith href "nc") <;> simp
      constructor
      · simp [hd', hf']
      · intro _
        simp [hd', hf']

/-- Claim C6, witness at the concrete href `x.html`: neither list changes. -/
theorem C6_file_suffix_exact_witness :
    (scrapeCore (fun _ => []) 2 "S/" ["x.html"] ⟨["S/"], [], []⟩).url_fns
      = [] ++ (if (strEndsWith "x.html" "tif" || strEndsWith "x.html" "nc") = true
          then ["S/" ++ "x.html"] else []) :=
  (C6_file_suffix_exact (fun _ => []) 1 "S/" "x.html" ⟨["S/"], [], []⟩ (fun _ => rfl)).1

/-- Claim C7: `selectSeeds` is a pure function (deterministic, no I/O, by
construction of the embedding), and for every valid `(sensor, country)` pair
other than the ambiguous `(All, X)` case it returns exactly the seed list of
the spec: the catalog root for `(All, All)`, one sub-tree root for
`(ortho, All)` and `(s2, All)`, the two `images/X` and `masks/X` seeds for a
specific country, and the empty list for `(All, X)` with `X ≠ All`. -/
theorem C7_selectSeeds_table :
    selectSeeds "All" "All" = [BASE_URL] ∧
    selectSeeds "ortho" "All" = [BASE_URL ++ "orthophoto/"] ∧
    selectSeeds "s2" "All" = [BASE_URL ++ "sentinel2/"] ∧
    ∀ c ∈ valid_countries, c ≠ "All" →
      selectSeeds "ortho" c = [BASE_URL ++ "orthophoto/images/" ++ c ++ "/",
          BASE_URL ++ "orthophoto/masks/" ++ c ++ "/"] ∧
      selectSeeds "s2" c = [BASE_URL ++ "sentinel2/images/" ++ c ++ "/",
          BASE_URL ++ "sentinel2/masks/" ++ c ++ "/"] ∧
      selectSeeds "All" c = [] := by
  refine ⟨by decide, by decide, by decide, by decide⟩

/-- Claim C7, witness at the concrete pair `(All, AT)`: empty seed list. -/
theorem C7_selectSeeds_table_witness : selectSeeds "All" "AT" = [] :=
  (C7_selectSeeds_table.2.2.2 "AT" (by decide) (by decide)).2.2

/-- Claim C8: an unrecognized sensor or country makes
`download_ai4boundaries` fail with the `ValueError` immediately: the embedding
returns the error before the seed selection, the scraper, the directory
creation or the download stage are ever entered, so no effect trace exists —
no network or filesystem I/O and no partial state. -/
theorem C8_invalid_args_error (listing : String → List String)
    (fetch : String → Nat → FetchOutcome) (fuel ofuel : Nat)
    (dir sensor country : String)
    (h : valid_sensors.contains sensor = false
        ∨ valid_countries.contains country = false) :
    ∃ e, download_ai4boundaries listing fetch fuel ofuel dir sensor country
      = Except.error e := by
  unfold download_ai4boundaries
  by_cases hs : valid_sensors.contains sensor = false
  · exact ⟨"Invalid sensor value.", by rw [if_pos hs]⟩
  · have hc : valid_countries.contains country = false := h.resolve_left hs
    exact ⟨"Invalid country value.", by rw [if_neg hs, if_pos hc]⟩

/-- Claim C8, witness at the concrete invalid sensor `landsat`. -/
theorem C8_invalid_args_error_witness :
    ∃ e, download_ai4boundaries (fun _ => []) (fun _ _ => FetchOutcome.urlError)
      1 1 "/data" "landsat" "All" = Except.error e :=
  C8_invalid_args_error (fun _ => []) (fun _ _ => FetchOutcome.urlError) 1 1
    "/data" "landsat" "All" (Or.inl (by decide))

/-- Fetch behaviour for C9: every attempt raises `urllib.error.URLError`. -/
def fetchAlwaysURLError (_u : String) (_n : Nat) : FetchOutcome :=
  FetchOutcome.urlError

/-- Claim C9: the claim says every first-attempt download failure causes
exactly one 20-time-unit cooldown and appends the URL to the failure list.
For the dominant failure mode — `urlopen` raising `URLError` — `download_file`
swallows the exception itself, so the engine sleeps 0 time-units, appends
nothing to `failed_fns`, and performs no retry (one single fetch in the log):
the cooldown-and-collect contract the spec states is dead code for this error
class, a code bug. -/
theorem C9_urlerror_no_cooldown_eval :
    (downloadAll fetchAlwaysURLError "/data" [BASE_URL ++ "g.nc"]).slept = 0 ∧
    (downloadAll fetchAlwaysURLError "/data" [BASE_URL ++ "g.nc"]).failed = [] ∧
    (downloadAll fetchAlwaysURLError "/data" [BASE_URL ++ "g.nc"]).fetchLog
      = [BASE_URL ++ "g.nc"] := by
  decide

/-- Claim C10: if the root directory contains `ftp` anywhere, every translated
directory path starts with the slash-normalized root and hence contains `ftp`,
so the defensive filter drops them all and the materializer creates no
directory; the download engine's translation has no such filter and still
attempts every file at its translated path (the `(url, destination)` pair
appears in the engine's attempt trace). -/
theorem C10_ftp_filter_drops_all (fetch : String → Nat → FetchOutcome)
    (dir : String) (urls url_fns : List String)
    (hftp : containsStr dir "ftp" = true)
    (hurls : ∀ u ∈ urls, ∃ s, u = BASE_URL ++ s) :
    subdirsFor dir urls = [] ∧
    ∀ u ∈ url_fns, (u, translateFile dir u) ∈ (downloadAll fetch dir url_fns).tried := by
  constructor
  · simp only [subdirsFor]
    have hD : containsStr (dirSlash dir) "ftp" = true :=
      containsStr_dirSlash dir "ftp" hftp
    have hall : ∀ x ∈ (urls.filter (fun i => !(strEndsWith i "DRLL/"))).map
        (fun i => translateFile dir i), (fun s => !(containsStr s "ftp")) x = false := by
      intro x hx
      obtain ⟨i, hi, rfl⟩ := List.mem_map.mp hx
      obtain ⟨s, rfl⟩ := hurls i (List.mem_of_mem_filter hi)
      rw [translateFile_base]
      have hft := containsStr_append_left (dirSlash dir)
        (pyReplace s BASE_URL (dirSlash dir)) "ftp" hD
      simp [hft]
    rw [filter_eq_nil_of_all _ _ hall]
    rfl
  · intro u hu
    have hT : (downloadAll fetch dir url_fns).tried
        = (url_fns.map fun v => (v, translateFile dir v))
          ++ ((downloadPass1 fetch dir url_fns dlInit).failed.map
              fun v => (v, translateFile dir v)) := by
      simp only [downloadAll]
      rw [downloadRetry_tried, downloadPass1_tried]
      simp [dlInit]
    rw [hT]
    exact List.mem_append_left _ (List.mem_map_of_mem _ hu)

/-- Claim C10, witness at a concrete root containing `ftp`. -/
theorem C10_ftp_filter_drops_all_witness :
    subdirsFor "/myftp/data" [BASE_URL ++ "a/"] = [] ∧
    (BASE_URL ++ "a/x.nc", translateFile "/myftp/data" (BASE_URL ++ "a/x.nc"))
      ∈ (downloadAll (fun _ _ => FetchOutcome.ok []) "/myftp/data"
          [BASE_URL ++ "a/x.nc"]).tried := by
  have h := C10_ftp_filter_drops_all (fun _ _ => FetchOutcome.ok []) "/myftp/data"
    [BASE_URL ++ "a/"] [BASE_URL ++ "a/x.nc"] (by decide)
    (by intro u hu; simp at hu; exact ⟨"a/", hu⟩)
  exact ⟨h.1, h.2 _ (by simp)⟩
